import Mathlib

/-!
Verification of the VynalDocsAutomator document pipeline and the Vynal Docs
web application against their specification.

The web layers are embedded directly from the source
(`src/backend/server.js`, `src/frontend/src/App.js`).  The Python desktop
tool's implementation is not in the corpus: only its configuration
(`config.json`, seen in `src/unnamed/part_005`) and a generated contract
artifact (`src/unnamed/part_004`) are present, so the four pipeline
components (Field Normalizer, Validator, Template Renderer, Document
Assembler) are modelled from the specification, their configuration data
taken verbatim from the config file.
-/

namespace VynalDocs

/-! ## Data model

A `Template` is an ordered sequence of text segments and placeholder
tokens; records are embedded as association lists where the first entry
for a key wins.
-/

/-- A template segment: either a literal text run or a placeholder token
naming a canonical key. -/
inductive Segment where
  | literal (s : String)
  | placeholder (key : String)
deriving DecidableEq, Repr

/-- A template is an ordered sequence of segments. -/
abbrev Template := List Segment

/-- An input record: arbitrary supplied field name to raw string value. -/
abbrev InputRecord := List (String × String)

/-- A canonical record: canonical key to value. -/
abbrev CanonicalRecord := List (String × String)

/-- First value stored under key `k`, if any. -/
def lookupField (r : CanonicalRecord) (k : String) : Option String :=
  match r with
  | [] => none
  | (k', v) :: rest => if k' = k then some v else lookupField rest k

/-! ## Template Renderer (modelled from the spec) -/

/-- Modelled from the spec: the Template Renderer emits literal segments
as-is and, for a placeholder, the value stored under its canonical key, or
the empty string when the key is absent (the Python renderer itself is
missing from the corpus; the blank-field contract artifact in
`src/unnamed/part_004` shows this behavior). -/
def renderSegment (r : CanonicalRecord) : Segment → String
  | .literal s => s
  | .placeholder k => (lookupField r k).getD ""

/-- Rendering loop with an explicit output buffer `acc`. -/
def renderInto (r : CanonicalRecord) (t : Template) (acc : String) : String :=
  match t with
  | [] => acc
  | seg :: rest => renderInto r rest (acc ++ renderSegment r seg)

/-- Modelled from the spec: render a template against a canonical record,
starting from an empty output buffer. -/
def render (t : Template) (r : CanonicalRecord) : String :=
  renderInto r t ""

/-! ## Field Normalizer (modelled from the spec)

Canonical keys and their synonym sets come verbatim from
`auto_fill.field_mapping` in the Python tool's `config.json`
(`src/unnamed/part_005` lines 373-384).  Matching is case-insensitive and
accent-insensitive.
-/

/-- Mapping from canonical key to its accepted synonym strings. -/
abbrev FieldMapping := List (String × List String)

/-- The `auto_fill.field_mapping` table from `config.json`
(`src/unnamed/part_005` lines 373-384). -/
def fieldMapping : FieldMapping :=
  [("client_name", ["nom", "name", "client"]),
   ("client_company", ["company", "société", "entreprise"]),
   ("client_email", ["email", "mail", "courriel"]),
   ("client_phone", ["phone", "téléphone", "tel"]),
   ("client_address", ["address", "adresse"]),
   ("document_date", ["date", "date_document"]),
   ("document_number", ["number", "numéro", "reference"]),
   ("amount", ["montant", "amount", "prix", "total"]),
   ("vat_amount", ["tva", "vat", "taxe"]),
   ("due_date", ["due", "échéance", "date_échéance"])]

/-- Modelled from the spec: fold one character for case-insensitive,
accent-insensitive comparison (ASCII lowering plus a French accent
table). -/
def foldChar (c : Char) : Char :=
  match c.toLower with
  | 'à' | 'â' | 'ä' | 'À' | 'Â' | 'Ä' => 'a'
  | 'é' | 'è' | 'ê' | 'ë' | 'É' | 'È' | 'Ê' | 'Ë' => 'e'
  | 'î' | 'ï' | 'Î' | 'Ï' => 'i'
  | 'ô' | 'ö' | 'Ô' | 'Ö' => 'o'
  | 'ù' | 'û' | 'ü' | 'Ù' | 'Û' | 'Ü' => 'u'
  | 'ç' | 'Ç' => 'c'
  | l => l

/-- Fold a whole field name for comparison. -/
def foldKey (s : String) : String :=
  ⟨s.data.map foldChar⟩

/-- First canonical key one of whose synonyms matches the raw field name
under folded comparison. -/
def matchKey (fm : FieldMapping) (raw : String) : Option String :=
  match fm with
  | [] => none
  | (k, syns) :: rest =>
      if syns.any (fun s => foldKey raw == foldKey s) then some k
      else matchKey rest raw

/-- Modelled from the spec: process one raw input entry.  A raw key
matching no canonical key is dropped silently; when the canonical key was
already filled, the first match wins and the later duplicate is
ignored. -/
def normalizeStep (fm : FieldMapping) (acc : CanonicalRecord)
    (e : String × String) : CanonicalRecord :=
  match matchKey fm e.1 with
  | none => acc
  | some k => if (lookupField acc k).isSome then acc else acc ++ [(k, e.2)]

/-- Modelled from the spec: the Field Normalizer maps an input record to a
canonical record by folding its entries in order. -/
def normalizeRecord (fm : FieldMapping) (input : InputRecord) : CanonicalRecord :=
  input.foldl (normalizeStep fm) []

/-! ## Validator (modelled from the spec)

Configuration booleans come verbatim from the `validation` block of
`config.json` (`src/unnamed/part_005` lines 345-353).
-/

/-- The format rule kinds the Validator knows. -/
inductive FieldRule where
  | date
  | amount
  | email
  | phone
  | address
deriving DecidableEq, Repr

/-- The `validation` block of the configuration. -/
structure ValidationConfig where
  strict_mode : Bool
  auto_correct : Bool
  validate_dates : Bool
  validate_amounts : Bool
  validate_emails : Bool
  validate_phones : Bool
  validate_addresses : Bool
deriving DecidableEq, Repr

/-- The `validation` block of `config.json`
(`src/unnamed/part_005` lines 345-353): every toggle is `true`. -/
def defaultValidation : ValidationConfig :=
  ⟨true, true, true, true, true, true, true⟩

/-- Whether the configuration activates the check for a rule kind. -/
def ruleActive (cfg : ValidationConfig) : FieldRule → Bool
  | .date => cfg.validate_dates
  | .amount => cfg.validate_amounts
  | .email => cfg.validate_emails
  | .phone => cfg.validate_phones
  | .address => cfg.validate_addresses

/-- Modelled from the spec: the format rule attached to each canonical
key, per the data model's typed values (date, decimal amount, email,
phone, address); the remaining canonical keys are free-form strings. -/
def ruleFor (k : String) : Option FieldRule :=
  if k = "client_email" then some .email
  else if k = "client_phone" then some .phone
  else if k = "client_address" then some .address
  else if k = "document_date" ∨ k = "due_date" then some .date
  else if k = "amount" ∨ k = "vat_amount" then some .amount
  else none

/-- Split a character list at the first occurrence of `c`, returning the
parts before and after it. -/
def splitAtChar (c : Char) : List Char → Option (List Char × List Char)
  | [] => none
  | x :: xs =>
      if x = c then some ([], xs)
      else
        match splitAtChar c xs with
        | none => none
        | some (l, r) => some (x :: l, r)

/-- Modelled from the spec: canonical date format `YYYY-MM-DD` (four
digits, dash, two digits, dash, two digits). -/
def isValidDate (s : String) : Bool :=
  match s.data with
  | [a, b, c, d, s1, e, f, s2, g, h] =>
      a.isDigit && b.isDigit && c.isDigit && d.isDigit && s1 == '-' &&
      e.isDigit && f.isDigit && s2 == '-' && g.isDigit && h.isDigit
  | _ => false

/-- Modelled from the spec: the deterministic date fix reformats a
slash-separated `YYYY/MM/DD` value to canonical `YYYY-MM-DD`; any other
value is left unchanged. -/
def correctDate (s : String) : String :=
  match s.data with
  | [a, b, c, d, s1, e, f, s2, g, h] =>
      if a.isDigit && b.isDigit && c.isDigit && d.isDigit && s1 == '/' &&
         e.isDigit && f.isDigit && s2 == '/' && g.isDigit && h.isDigit
      then ⟨[a, b, c, d, '-', e, f, '-', g, h]⟩
      else s
  | _ => s

/-- Modelled from the spec: an email is a nonempty local part, one `@`,
and a nonempty domain containing a dot. -/
def isValidEmail (s : String) : Bool :=
  match splitAtChar '@' s.data with
  | none => false
  | some (lpart, dpart) =>
      !lpart.isEmpty && !dpart.isEmpty && !dpart.contains '@' &&
      dpart.contains '.'

/-- Modelled from the spec: a decimal amount is digits with at most one
dot, nonempty on both sides. -/
def isValidAmount (s : String) : Bool :=
  match splitAtChar '.' s.data with
  | none => !s.data.isEmpty && s.data.all Char.isDigit
  | some (ip, fp) =>
      !ip.isEmpty && !fp.isEmpty && ip.all Char.isDigit && fp.all Char.isDigit

/-- Modelled from the spec: the deterministic phone fix strips non-digit
characters. -/
def correctPhone (s : String) : String :=
  ⟨s.data.filter Char.isDigit⟩

/-- Modelled from the spec: a phone value is a nonempty digit string. -/
def isValidPhone (s : String) : Bool :=
  !s.data.isEmpty && s.data.all Char.isDigit

/-- Modelled from the spec: an address is any nonempty string. -/
def isValidAddress (s : String) : Bool :=
  !s.data.isEmpty

/-- The format check for each rule kind. -/
def checkRule : FieldRule → String → Bool
  | .date, v => isValidDate v
  | .amount, v => isValidAmount v
  | .email, v => isValidEmail v
  | .phone, v => isValidPhone v
  | .address, v => isValidAddress v

/-- Modelled from the spec: the deterministic fixes auto-correct can
apply (date reformatting, phone digit stripping); the other rules have
none and leave the value unchanged. -/
def applyFix : FieldRule → String → String
  | .date, v => correctDate v
  | .phone, v => correctPhone v
  | _, v => v

/-- A `ValidationError` names the offending field, the violated rule and
the raw value, per the spec's error taxonomy. -/
structure ValidationError where
  field : String
  rule : FieldRule
  raw : String
deriving DecidableEq, Repr

/-- Modelled from the spec: validate one canonical field.  When the
field's rule is active, auto-correct (if enabled) applies its
deterministic fix first; a value still failing the check fails the
request in strict mode and passes through unchanged otherwise. -/
def validateField (cfg : ValidationConfig) (k v : String) :
    Except ValidationError String :=
  match ruleFor k with
  | none => .ok v
  | some rule =>
      if ruleActive cfg rule then
        let v' := if cfg.auto_correct then applyFix rule v else v
        if checkRule rule v' then .ok v'
        else if cfg.strict_mode then .error ⟨k, rule, v⟩
        else .ok v'
      else .ok v

/-- Whether a field's active format check fails on its (possibly
auto-corrected) value. -/
def failsCheck (cfg : ValidationConfig) (k v : String) : Bool :=
  match ruleFor k with
  | none => false
  | some rule =>
      ruleActive cfg rule &&
      !(checkRule rule (if cfg.auto_correct then applyFix rule v else v))

/-- Modelled from the spec: validate a whole canonical record, failing on
the first offending field. -/
def validateRecord (cfg : ValidationConfig) :
    CanonicalRecord → Except ValidationError CanonicalRecord
  | [] => .ok []
  | (k, v) :: rest =>
      match validateField cfg k v with
      | .error e => .error e
      | .ok v' =>
          match validateRecord cfg rest with
          | .error e => .error e
          | .ok rest' => .ok ((k, v') :: rest')

/-- Modelled from the spec: confidence gating.  A field whose auto-fill
confidence score is strictly below the threshold is treated as unset and
contributes nothing to the canonical record; fields at or above the
threshold are used. -/
def applyConfidenceGate (threshold : ℚ)
    (fields : List (String × String × ℚ)) : CanonicalRecord :=
  fields.filterMap fun e =>
    if threshold ≤ e.2.2 then some (e.1, e.2.1) else none

/-- The `auto_fill.confidence_threshold` value from `config.json`
(`src/unnamed/part_005` line 369): `0.8`, i.e. `8/10`. -/
def defaultConfidenceThreshold : ℚ := mkRat 8 10

/-! ## Document Assembler (modelled from the spec) -/

/-- Assembly failure: a reference-id collision surviving all retries. -/
inductive AssembleError where
  | referenceCollision
deriving DecidableEq, Repr

/-- Lowercase hex digit for a value below 16. -/
def hexDigit (n : Nat) : Char :=
  if n < 10 then Char.ofNat ('0'.toNat + n)
  else Char.ofNat ('a'.toNat + (n - 10))

/-- Modelled from the spec: an 8-hex-character reference token (the
artifact in `src/unnamed/part_004` line 117 shows `Ref: 56fcfc10`). -/
def toHex8 (n : Nat) : String :=
  ⟨[hexDigit (n / 16 ^ 7 % 16), hexDigit (n / 16 ^ 6 % 16),
    hexDigit (n / 16 ^ 5 % 16), hexDigit (n / 16 ^ 4 % 16),
    hexDigit (n / 16 ^ 3 % 16), hexDigit (n / 16 ^ 2 % 16),
    hexDigit (n / 16 % 16), hexDigit (n % 16)]⟩

/-- Modelled from the spec: try candidate ids starting at attempt `i`
with `fuel` retries left; a candidate already stored is a collision and
triggers a regeneration, and exhausting the retries fails with
`referenceCollision`. -/
def allocateRefAux (cands : Nat → String) (store : List String) :
    Nat → Nat → Except AssembleError String
  | i, 0 =>
      if cands i ∈ store then .error .referenceCollision else .ok (cands i)
  | i, fuel + 1 =>
      if cands i ∈ store then allocateRefAux cands store (i + 1) fuel
      else .ok (cands i)

/-- Modelled from the spec: allocate a reference id against the stored
references, with a bounded number of retries after the first attempt. -/
def allocateRef (cands : Nat → String) (store : List String)
    (retries : Nat) : Except AssembleError String :=
  allocateRefAux cands store 0 retries

/-- Modelled from the spec: the output file persisted for a reference id
(the id makes the name unique). -/
def outputFile (ref : String) : String :=
  ref ++ ".txt"

/-- Modelled from the spec: serialized processing of generation requests
against one output directory.  Allocation and store update form one
atomic unit, so any concurrent execution is equivalent to this
sequential fold; each successful allocation is recorded in the store
before the next request runs. -/
def processRequests (cands : Nat → Nat → String) (retries : Nat) :
    List Nat → List String → List (Except AssembleError String)
  | [], _ => []
  | j :: rest, store =>
      match allocateRef (cands j) store retries with
      | .ok ref => .ok ref :: processRequests cands retries rest (ref :: store)
      | .error e => .error e :: processRequests cands retries rest store

/-- The reference ids of the successful requests. -/
def okRefs (results : List (Except AssembleError String)) : List String :=
  results.filterMap Except.toOption

/-! ## Generation pipeline (modelled from the spec) -/

/-- A generation request error: validation failure or reference-id
collision. -/
inductive GenError where
  | validation (e : ValidationError)
  | referenceCollision
deriving DecidableEq, Repr

/-- A generated document: title, reference id and rendered body (the
timestamp and client block are opaque metadata for the claims here). -/
structure GeneratedDocument where
  title : String
  referenceId : String
  body : String
deriving DecidableEq, Repr

/-- Modelled from the spec: the `generate` entry point chains validation,
rendering and reference allocation; a validation failure aborts the
request before any document is produced. -/
def generate (cfg : ValidationConfig) (title : String) (t : Template)
    (r : CanonicalRecord) (cands : Nat → String) (store : List String)
    (retries : Nat) : Except GenError GeneratedDocument :=
  match validateRecord cfg r with
  | .error e => .error (.validation e)
  | .ok r' =>
      match allocateRef cands store retries with
      | .error _ => .error .referenceCollision
      | .ok ref => .ok ⟨title, ref, render t r'⟩

/-! ## Backend Ollama proxy (from `src/backend/server.js`)

All three proxy endpoints (`GET /api/models`, `POST /api/generate`,
`POST /api/pull`) share the same shape: `fetch` the Ollama runtime inside
a `try`; if the response is not `ok`, `throw` an error carrying Ollama's
status; the `catch` block answers `500` with a JSON object holding the
error message; on success the Ollama JSON body is relayed via `res.json`.
-/

/-- Result of the `fetch` call to the Ollama runtime as the handler sees
it: either the promise rejected with a message, or a response arrived
with its `ok` flag, status code, status text and JSON body. -/
inductive FetchOutcome where
  | threw (msg : String)
  | response (ok : Bool) (status : Nat) (statusText : String) (body : String)
deriving DecidableEq, Repr

/-- Body of the HTTP answer the handler sends: either relayed JSON data
or a JSON object with a single `error` field holding a message. -/
inductive RespBody where
  | data (d : String)
  | errObj (msg : String)
deriving DecidableEq, Repr

/-- The HTTP answer sent to the client. -/
structure HttpResponse where
  status : Nat
  body : RespBody
deriving DecidableEq, Repr

/-- The message built by `new Error` when Ollama answers non-ok
(server.js lines 68, 89, 111). -/
def ollamaErrorMessage (status : Nat) (statusText : String) : String :=
  "Erreur Ollama: " ++ toString status ++ " " ++ statusText

/-- Common handler logic of the three proxy endpoints: non-ok responses
are turned into a thrown error, and the catch-all answers 500 with the
message; a successful body is relayed with Express's default 200. -/
def proxyHandler : FetchOutcome → HttpResponse
  | .threw msg => ⟨500, .errObj msg⟩
  | .response ok status statusText body =>
      if ok then ⟨200, .data body⟩
      else ⟨500, .errObj (ollamaErrorMessage status statusText)⟩

/-- Handler of `GET /api/models` (server.js lines 64-76). -/
def handleModels (o : FetchOutcome) : HttpResponse := proxyHandler o

/-- Handler of `POST /api/generate` (server.js lines 78-98). -/
def handleGenerate (o : FetchOutcome) : HttpResponse := proxyHandler o

/-- Handler of `POST /api/pull` (server.js lines 100-120). -/
def handlePull (o : FetchOutcome) : HttpResponse := proxyHandler o

/-! ## Frontend route gating (from `src/frontend/src/App.js`) -/

/-- What the `App` component's route table renders for a given path. -/
inductive Rendered where
  | loginPage
  | registerPage
  | mainApp
  | navigate (dest : String)
deriving DecidableEq, Repr

/-- The `Routes` element of `App` (App.js lines 291-298): `/login` and
`/register` are matched first; every other path falls to the `/*` route,
which renders `MainApp` when authenticated and a redirect to `/login`
otherwise. -/
def appRoutes (isAuthenticated : Bool) (path : String) : Rendered :=
  if path = "/login" then .loginPage
  else if path = "/register" then .registerPage
  else if isAuthenticated then .mainApp
  else .navigate "/login"


/-! ## Renderer lemmas -/

theorem renderInto_append (r : CanonicalRecord) (t : Template) (acc : String) :
    renderInto r t acc = acc ++ renderInto r t "" := by
  induction t generalizing acc with
  | nil => simp [renderInto]
  | cons seg rest ih =>
      rw [renderInto, renderInto,
        ih (acc ++ renderSegment r seg), ih ("" ++ renderSegment r seg),
        String.empty_append, String.append_assoc]

theorem render_cons (r : CanonicalRecord) (seg : Segment) (t : Template) :
    render (seg :: t) r = renderSegment r seg ++ render t r := by
  rw [render, renderInto, renderInto_append, String.empty_append]
  rfl

/-- C1: for every template and canonical record, a placeholder token
whose canonical key has no value in the record emits the empty string in
the output body (rendering is a total function, so no error can be
raised), and literal segments are emitted as-is. -/
theorem render_missing_placeholder_empty (t : Template) (r : CanonicalRecord)
    (k s : String) (h : lookupField r k = none) :
    renderSegment r (.placeholder k) = "" ∧
    render (.placeholder k :: t) r = render t r ∧
    renderSegment r (.literal s) = s ∧
    render (.literal s :: t) r = s ++ render t r := by
  have hseg : renderSegment r (.placeholder k) = "" := by
    simp [renderSegment, h]
  refine ⟨hseg, ?_, rfl, render_cons r (.literal s) t⟩
  rw [render_cons, hseg, String.empty_append]

theorem render_missing_placeholder_empty_witness :
    renderSegment [("x", "1")] (.placeholder "y") = "" ∧
    render (.placeholder "y" :: [.literal "a"]) [("x", "1")] =
      render [.literal "a"] [("x", "1")] ∧
    renderSegment [("x", "1")] (.literal "b") = "b" ∧
    render (.literal "b" :: [.literal "a"]) [("x", "1")] =
      "b" ++ render [.literal "a"] [("x", "1")] :=
  render_missing_placeholder_empty [.literal "a"] [("x", "1")] "y" "b" (by decide)

/-- C8: rendering is a deterministic, side-effect-free function of its
two inputs: two runs on equal inputs yield identical output, and a run
started on any prior output buffer only appends its own output to that
buffer, leaving everything else untouched. -/
theorem render_deterministic_pure (t1 t2 : Template) (r1 r2 : CanonicalRecord)
    (acc : String) (ht : t1 = t2) (hr : r1 = r2) :
    render t1 r1 = render t2 r2 ∧
    renderInto r1 t1 acc = acc ++ render t1 r1 := by
  subst ht
  subst hr
  exact ⟨rfl, renderInto_append r1 t1 acc⟩

theorem render_deterministic_pure_witness :
    render [Segment.placeholder "x"] [("x", "1")] =
      render [Segment.placeholder "x"] [("x", "1")] ∧
    renderInto [("x", "1")] [Segment.placeholder "x"] "z" =
      "z" ++ render [Segment.placeholder "x"] [("x", "1")] :=
  render_deterministic_pure [Segment.placeholder "x"] [Segment.placeholder "x"]
    [("x", "1")] [("x", "1")] "z" rfl rfl

/-! ## Backend proxy theorems -/

/-- C9: each of the three Ollama proxy endpoints answers 500 with a JSON
error object when the fetch throws or Ollama answers non-ok (so Ollama's
own error status code, whatever it was, is never forwarded), and relays
Ollama's JSON body unchanged on success. -/
theorem proxy_error_handling :
    ∀ (msg : String) (st : Nat) (stx body : String),
      (handleModels (.threw msg) = ⟨500, .errObj msg⟩ ∧
        handleGenerate (.threw msg) = ⟨500, .errObj msg⟩ ∧
        handlePull (.threw msg) = ⟨500, .errObj msg⟩) ∧
      (handleModels (.response false st stx body) =
          ⟨500, .errObj (ollamaErrorMessage st stx)⟩ ∧
        handleGenerate (.response false st stx body) =
          ⟨500, .errObj (ollamaErrorMessage st stx)⟩ ∧
        handlePull (.response false st stx body) =
          ⟨500, .errObj (ollamaErrorMessage st stx)⟩) ∧
      (handleModels (.response true st stx body) = ⟨200, .data body⟩ ∧
        handleGenerate (.response true st stx body) = ⟨200, .data body⟩ ∧
        handlePull (.response true st stx body) = ⟨200, .data body⟩) := by
  intro msg st stx body
  exact ⟨⟨rfl, rfl, rfl⟩, ⟨rfl, rfl, rfl⟩, ⟨rfl, rfl, rfl⟩⟩

/-! ## Frontend routing theorems -/

/-- C10: when the user is not authenticated, every path other than
`/login` and `/register` renders a redirect to `/login`, and no path at
all renders the main application. -/
theorem unauthenticated_redirects_to_login :
    ∀ path : String,
      (path ≠ "/login" → path ≠ "/register" →
        appRoutes false path = .navigate "/login") ∧
      appRoutes false path ≠ .mainApp := by
  intro path
  constructor
  · intro h1 h2
    simp [appRoutes, h1, h2]
  · by_cases h1 : path = "/login" <;> by_cases h2 : path = "/register" <;>
      simp [appRoutes, h1, h2]

theorem unauthenticated_redirects_to_login_witness :
    appRoutes false "/documents" = .navigate "/login" ∧
    appRoutes false "/documents" ≠ .mainApp :=
  ⟨(unauthenticated_redirects_to_login "/documents").1 (by decide) (by decide),
    (unauthenticated_redirects_to_login "/documents").2⟩


/-! ## Assembler lemmas -/

theorem allocateRefAux_ok (cands : Nat → String) (store : List String) :
    ∀ (fuel i : Nat) (ref : String),
      allocateRefAux cands store i fuel = .ok ref →
      ref ∉ store ∧ ∃ j, i ≤ j ∧ j ≤ i + fuel ∧ ref = cands j := by
  intro fuel
  induction fuel with
  | zero =>
      intro i ref h
      rw [allocateRefAux] at h
      by_cases hc : cands i ∈ store
      · simp [hc] at h
      · simp [hc] at h
        subst h
        exact ⟨hc, i, Nat.le_refl i, by omega, rfl⟩
  | succ fuel ih =>
      intro i ref h
      rw [allocateRefAux] at h
      by_cases hc : cands i ∈ store
      · rw [if_pos hc] at h
        obtain ⟨h1, j, hij, hjf, hrf⟩ := ih (i + 1) ref h
        exact ⟨h1, j, by omega, by omega, hrf⟩
      · rw [if_neg hc] at h
        injection h with h
        subst h
        exact ⟨hc, i, Nat.le_refl i, by omega, rfl⟩

theorem allocateRefAux_error (cands : Nat → String) (store : List String) :
    ∀ (fuel i : Nat) (e : AssembleError),
      allocateRefAux cands store i fuel = .error e →
      e = .referenceCollision ∧ ∀ j, i ≤ j → j ≤ i + fuel → cands j ∈ store := by
  intro fuel
  induction fuel with
  | zero =>
      intro i e h
      rw [allocateRefAux] at h
      by_cases hc : cands i ∈ store
      · refine ⟨by cases e; rfl, ?_⟩
        intro j hij hji
        have : j = i := by omega
        subst this
        exact hc
      · simp [hc] at h
  | succ fuel ih =>
      intro i e h
      rw [allocateRefAux] at h
      by_cases hc : cands i ∈ store
      · rw [if_pos hc] at h
        obtain ⟨he, hall⟩ := ih (i + 1) e h
        refine ⟨he, ?_⟩
        intro j hij hji
        by_cases hj : j = i
        · subst hj; exact hc
        · exact hall j (by omega) (by omega)
      · simp [hc] at h

/-- C2: the Document Assembler's reference id is an 8-hex-character
token; a successful allocation returns an id absent from the stored
references, found within the bounded number of retries, and when every
candidate up to the retry bound collides the allocation fails with
`referenceCollision` instead of emitting a duplicate. -/
theorem allocateRef_unique_or_collision (cands : Nat → String)
    (store : List String) (retries : Nat) :
    (∀ ref, allocateRef cands store retries = .ok ref →
        ref ∉ store ∧ ∃ i, i ≤ retries ∧ ref = cands i) ∧
    (∀ e, allocateRef cands store retries = .error e →
        e = .referenceCollision ∧ ∀ i, i ≤ retries → cands i ∈ store) ∧
    (∀ n, (toHex8 n).length = 8) := by
  refine ⟨?_, ?_, fun n => rfl⟩
  · intro ref h
    obtain ⟨h1, j, _, hjf, hrf⟩ := allocateRefAux_ok cands store retries 0 ref h
    exact ⟨h1, j, by omega, hrf⟩
  · intro e h
    obtain ⟨he, hall⟩ := allocateRefAux_error cands store retries 0 e h
    exact ⟨he, fun i hi => hall i (Nat.zero_le i) (by omega)⟩

theorem allocateRef_unique_or_collision_witness :
    "00000001" ∉ ["00000000"] ∧ ∃ i, i ≤ 5 ∧ "00000001" = toHex8 i :=
  (allocateRef_unique_or_collision (fun i => toHex8 i) ["00000000"] 5).1
    "00000001" rfl

/-! ## Serialized allocation lemmas -/

theorem okRefs_cons_ok (r : String) (results : List (Except AssembleError String)) :
    okRefs (.ok r :: results) = r :: okRefs results := rfl

theorem okRefs_cons_error (e : AssembleError)
    (results : List (Except AssembleError String)) :
    okRefs (.error e :: results) = okRefs results := rfl

theorem processRequests_fresh (cands : Nat → Nat → String) (retries : Nat) :
    ∀ (reqs : List Nat) (store : List String) (ref : String),
      ref ∈ okRefs (processRequests cands retries reqs store) → ref ∉ store := by
  intro reqs
  induction reqs with
  | nil =>
      intro store ref h
      simp [processRequests, okRefs] at h
  | cons j rest ih =>
      intro store ref h
      cases hall : allocateRef (cands j) store retries with
      | ok r =>
          rw [processRequests, hall, okRefs_cons_ok] at h
          rcases List.mem_cons.mp h with h1 | h2
          · subst h1
            exact (allocateRefAux_ok (cands j) store retries 0 ref hall).1
          · have hfresh := ih (r :: store) ref h2
            intro hmem
            exact hfresh (List.mem_cons_of_mem r hmem)
      | error e =>
          rw [processRequests, hall, okRefs_cons_error] at h
          exact ih store ref h

theorem processRequests_nodup (cands : Nat → Nat → String) (retries : Nat) :
    ∀ (reqs : List Nat) (store : List String),
      (okRefs (processRequests cands retries reqs store)).Nodup := by
  intro reqs
  induction reqs with
  | nil =>
      intro store
      simp [processRequests, okRefs]
  | cons j rest ih =>
      intro store
      cases hall : allocateRef (cands j) store retries with
      | ok r =>
          rw [processRequests, hall, okRefs_cons_ok]
          refine List.nodup_cons.mpr ⟨?_, ih (r :: store)⟩
          intro hmem
          exact processRequests_fresh cands retries rest (r :: store) r hmem
            (List.mem_cons_self r store)
      | error e =>
          rw [processRequests, hall, okRefs_cons_error]
          exact ih store

theorem outputFile_injective : Function.Injective outputFile := by
  intro a b h
  have hd : (a ++ ".txt").data = (b ++ ".txt").data := congrArg String.data h
  rw [String.data_append, String.data_append] at hd
  exact String.ext (List.append_inj_left' hd rfl)

/-- C3: under the spec-mandated serialization of reference-id
allocation (each allocation and store update is one atomic unit, so any
concurrent execution is equivalent to a sequential fold), processing any
list of generation requests against one output directory yields pairwise
distinct reference ids, none colliding with a previously stored
reference, and pairwise distinct output files. -/
theorem processRequests_distinct_refs (cands : Nat → Nat → String)
    (retries : Nat) (reqs : List Nat) (store : List String) :
    (okRefs (processRequests cands retries reqs store)).Nodup ∧
    (∀ ref ∈ okRefs (processRequests cands retries reqs store), ref ∉ store) ∧
    ((okRefs (processRequests cands retries reqs store)).map outputFile).Nodup := by
  refine ⟨processRequests_nodup cands retries reqs store, ?_, ?_⟩
  · intro ref h
    exact processRequests_fresh cands retries reqs store ref h
  · exact (processRequests_nodup cands retries reqs store).map outputFile_injective

theorem processRequests_distinct_refs_witness :
    (okRefs (processRequests (fun _ i => toHex8 i) 5 [0, 1, 2] [])).Nodup ∧
    "00000000" ∉ ([] : List String) :=
  ⟨(processRequests_distinct_refs (fun _ i => toHex8 i) 5 [0, 1, 2] []).1,
    (processRequests_distinct_refs (fun _ i => toHex8 i) 5 [0, 1, 2] []).2.1
      "00000000" (by decide)⟩


/-! ## Validator lemmas -/

theorem validateField_of_fails (cfg : ValidationConfig) (k v : String)
    (hs : cfg.strict_mode = true) (hf : failsCheck cfg k v = true) :
    ∃ rule, ruleFor k = some rule ∧ validateField cfg k v = .error ⟨k, rule, v⟩ := by
  cases hr : ruleFor k with
  | none =>
      simp only [failsCheck, hr] at hf
      exact absurd hf (by simp)
  | some rule =>
      simp only [failsCheck, hr, Bool.and_eq_true] at hf
      obtain ⟨ha, hc⟩ := hf
      rw [Bool.not_eq_true'] at hc
      refine ⟨rule, rfl, ?_⟩
      simp only [validateField, hr, ha, if_true, hc, hs, Bool.false_eq_true,
        if_false]

theorem validateField_error_elim (cfg : ValidationConfig) (k v : String)
    (e : ValidationError) (h : validateField cfg k v = .error e) :
    e.field = k ∧ e.raw = v ∧ failsCheck cfg k v = true := by
  cases hr : ruleFor k with
  | none =>
      simp only [validateField, hr] at h
      exact absurd h (by simp)
  | some rule =>
      simp only [validateField, hr] at h
      by_cases ha : ruleActive cfg rule = true
      · by_cases hc : checkRule rule
            (if cfg.auto_correct then applyFix rule v else v) = true
        · simp [ha, hc] at h
        · by_cases hs : cfg.strict_mode = true
          · simp only [ha, if_true] at h
            rw [Bool.not_eq_true] at hc
            simp only [hc, Bool.false_eq_true, if_false, hs, if_true,
              Except.error.injEq] at h
            cases h
            refine ⟨rfl, rfl, ?_⟩
            simp [failsCheck, hr, ha, hc]
          · simp [ha, hc, hs] at h
      · simp [ha] at h

theorem validateRecord_error_of_mem (cfg : ValidationConfig) :
    ∀ (r : CanonicalRecord) (k v : String), cfg.strict_mode = true →
      (k, v) ∈ r → failsCheck cfg k v = true →
      ∃ e : ValidationError, validateRecord cfg r = .error e ∧
        failsCheck cfg e.field e.raw = true ∧ (e.field, e.raw) ∈ r := by
  intro r
  induction r with
  | nil =>
      intro k v _ hmem _
      simp at hmem
  | cons p rest ih =>
      intro k v hs hmem hf
      obtain ⟨pk, pv⟩ := p
      cases hvf : validateField cfg pk pv with
      | error e =>
          obtain ⟨hef, her, hfe⟩ := validateField_error_elim cfg pk pv e hvf
          refine ⟨e, ?_, ?_, ?_⟩
          · simp only [validateRecord, hvf]
          · rw [hef, her]
            exact hfe
          · rw [hef, her]
            exact List.mem_cons_self (pk, pv) rest
      | ok v' =>
          rcases List.mem_cons.mp hmem with heq | hrest
          · cases heq
            obtain ⟨rule, _, herr⟩ := validateField_of_fails cfg k v hs hf
            rw [herr] at hvf
            exact absurd hvf (by simp)
          · obtain ⟨e, he, hef, hemem⟩ := ih k v hs hrest hf
            refine ⟨e, ?_, hef, List.mem_cons_of_mem (pk, pv) hemem⟩
            simp only [validateRecord, hvf, he]

/-- C4: with strict mode on, a canonical field whose active format check
fails (for example `client_email` holding `not-an-email`) makes the whole
request fail: validation returns a `ValidationError` naming an offending
field, its violated rule and raw value, and the `generate` entry point
returns that error instead of producing any document. -/
theorem strict_mode_validation_error (cfg : ValidationConfig)
    (r : CanonicalRecord) (k v title : String) (t : Template)
    (cands : Nat → String) (store : List String) (retries : Nat)
    (hs : cfg.strict_mode = true) (hmem : (k, v) ∈ r)
    (hf : failsCheck cfg k v = true) :
    (∃ e : ValidationError, validateRecord cfg r = .error e ∧
        failsCheck cfg e.field e.raw = true ∧ (e.field, e.raw) ∈ r) ∧
    (∃ e : ValidationError,
        generate cfg title t r cands store retries = .error (.validation e)) ∧
    failsCheck defaultValidation "client_email" "not-an-email" = true := by
  obtain ⟨e, he, hef, hemem⟩ := validateRecord_error_of_mem cfg r k v hs hmem hf
  refine ⟨⟨e, he, hef, hemem⟩, ⟨e, ?_⟩, by decide⟩
  simp only [generate, he]

theorem strict_mode_validation_error_witness :
    ∃ e : ValidationError,
      generate defaultValidation "T" [] [("client_email", "not-an-email")]
        (fun _ => "") [] 0 = .error (.validation e) :=
  (strict_mode_validation_error defaultValidation
    [("client_email", "not-an-email")] "client_email" "not-an-email" "T" []
    (fun _ => "") [] 0 rfl (by decide) (by decide)).2.1

/-- C5: with `auto_correct` and `validate_dates` both enabled, a date
field holding `2024/04/01` validates to the canonical `2024-04-01`; in
general, when the deterministic date fix yields a valid date the
corrected value replaces the raw one, and a value the fix leaves
unchanged that already passes the check goes through unchanged. -/
theorem auto_correct_date_canonical (cfg : ValidationConfig) (k v : String)
    (hk : ruleFor k = some .date) (ha : cfg.auto_correct = true)
    (hd : cfg.validate_dates = true) :
    (isValidDate (correctDate v) = true →
      validateField cfg k v = .ok (correctDate v)) ∧
    (correctDate v = v → isValidDate v = true →
      validateField cfg k v = .ok v) ∧
    correctDate "2024/04/01" = "2024-04-01" ∧
    validateField defaultValidation "document_date" "2024/04/01" =
      .ok "2024-04-01" := by
  have hact : ruleActive cfg FieldRule.date = true := hd
  refine ⟨?_, ?_, by decide, rfl⟩
  · intro hvalid
    simp only [validateField, hk, hact, if_true, ha, applyFix, checkRule,
      hvalid]
  · intro hfix hvalid
    simp only [validateField, hk, hact, if_true, ha, applyFix, checkRule,
      hfix, hvalid]

theorem auto_correct_date_canonical_witness :
    validateField defaultValidation "document_date" "2024/04/01" =
      .ok "2024-04-01" :=
  (auto_correct_date_canonical defaultValidation "document_date" "2024/04/01"
    rfl rfl rfl).2.2.2


/-! ## Confidence gating theorems -/

/-- C6: a field whose auto-fill confidence is strictly below the
threshold contributes no value to the canonical record even when a value
is present, and a field at or above the threshold is used; membership in
the gated record is exactly presence in the input with a confidence at
or above the threshold. -/
theorem confidence_gate_spec (thr : ℚ) (fields : List (String × String × ℚ))
    (k v : String) (c : ℚ) :
    ((k, v) ∈ applyConfidenceGate thr fields ↔
      ∃ c', thr ≤ c' ∧ (k, v, c') ∈ fields) ∧
    ((∀ e ∈ fields, e.1 = k → e.2.2 < thr) →
      ∀ v', (k, v') ∉ applyConfidenceGate thr fields) ∧
    ((k, v, c) ∈ fields → thr ≤ c → (k, v) ∈ applyConfidenceGate thr fields) := by
  have hiff : ∀ w : String, (k, w) ∈ applyConfidenceGate thr fields ↔
      ∃ c', thr ≤ c' ∧ (k, w, c') ∈ fields := by
    intro w
    constructor
    · intro h
      simp only [applyConfidenceGate, List.mem_filterMap] at h
      obtain ⟨⟨a, b, c'⟩, hmem, hf⟩ := h
      by_cases hc : thr ≤ c'
      · rw [if_pos hc] at hf
        injection hf with hf
        cases hf
        exact ⟨c', hc, hmem⟩
      · rw [if_neg hc] at hf
        exact absurd hf (by simp)
    · rintro ⟨c', hc, hmem⟩
      simp only [applyConfidenceGate, List.mem_filterMap]
      exact ⟨(k, w, c'), hmem, by rw [if_pos hc]⟩
  refine ⟨hiff v, ?_, ?_⟩
  · intro hall v' hmem
    obtain ⟨c', hc, hmem'⟩ := (hiff v').mp hmem
    exact absurd hc (not_le.mpr (hall (k, v', c') hmem' rfl))
  · intro hmem hc
    exact (hiff v).mpr ⟨c, hc, hmem⟩

theorem confidence_gate_spec_witness :
    ("client_email", "a") ∉
      applyConfidenceGate defaultConfidenceThreshold
        [("client_email", "a", mkRat 7 10), ("client_name", "Jean", mkRat 9 10)] ∧
    ("client_name", "Jean") ∈
      applyConfidenceGate defaultConfidenceThreshold
        [("client_email", "a", mkRat 7 10), ("client_name", "Jean", mkRat 9 10)] :=
  ⟨(confidence_gate_spec defaultConfidenceThreshold
      [("client_email", "a", mkRat 7 10), ("client_name", "Jean", mkRat 9 10)]
      "client_email" "a" 0).2.1 (by decide) "a",
    (confidence_gate_spec defaultConfidenceThreshold
      [("client_email", "a", mkRat 7 10), ("client_name", "Jean", mkRat 9 10)]
      "client_name" "Jean" (mkRat 9 10)).2.2 (by decide) (by decide)⟩

/-! ## Normalizer lemmas -/

theorem lookupField_mem : ∀ (r : CanonicalRecord) (k v : String),
    lookupField r k = some v → (k, v) ∈ r := by
  intro r
  induction r with
  | nil =>
      intro k v h
      simp [lookupField] at h
  | cons p rest ih =>
      intro k v h
      obtain ⟨pk, pv⟩ := p
      rw [lookupField] at h
      by_cases hk : pk = k
      · rw [if_pos hk] at h
        injection h with h
        subst hk
        subst h
        exact List.mem_cons_self (pk, pv) rest
      · rw [if_neg hk] at h
        exact List.mem_cons_of_mem (pk, pv) (ih k v h)

theorem matchKey_mem : ∀ (fm : FieldMapping) (raw k : String),
    matchKey fm raw = some k → ∃ syns, (k, syns) ∈ fm := by
  intro fm
  induction fm with
  | nil =>
      intro raw k h
      simp [matchKey] at h
  | cons p rest ih =>
      intro raw k h
      obtain ⟨pk, syns⟩ := p
      rw [matchKey] at h
      by_cases hc : syns.any (fun s => foldKey raw == foldKey s) = true
      · rw [if_pos hc] at h
        injection h with h
        subst h
        exact ⟨syns, List.mem_cons_self _ rest⟩
      · rw [if_neg hc] at h
        obtain ⟨syns', hs'⟩ := ih raw k h
        exact ⟨syns', List.mem_cons_of_mem (pk, syns) hs'⟩

theorem mem_normalizeStep (fm : FieldMapping) (acc : CanonicalRecord)
    (e : String × String) (p : String × String) (h : p ∈ acc) :
    p ∈ normalizeStep fm acc e := by
  cases hm : matchKey fm e.1 with
  | none => simpa [normalizeStep, hm] using h
  | some k =>
      simp only [normalizeStep, hm]
      by_cases hl : (lookupField acc k).isSome = true
      · rw [if_pos hl]
        exact h
      · rw [if_neg hl]
        exact List.mem_append_left _ h

theorem key_mem_normalizeStep (fm : FieldMapping) (acc : CanonicalRecord)
    (e : String × String) (k : String) (hm : matchKey fm e.1 = some k) :
    ∃ v', (k, v') ∈ normalizeStep fm acc e := by
  simp only [normalizeStep, hm]
  by_cases hl : (lookupField acc k).isSome = true
  · rw [if_pos hl]
    obtain ⟨v', hv'⟩ := Option.isSome_iff_exists.mp hl
    exact ⟨v', lookupField_mem acc k v' hv'⟩
  · rw [if_neg hl]
    exact ⟨e.2, List.mem_append_right _ (List.mem_singleton.mpr rfl)⟩

theorem mem_foldl_normalize (fm : FieldMapping) :
    ∀ (input : InputRecord) (acc : CanonicalRecord) (p : String × String),
      p ∈ acc → p ∈ input.foldl (normalizeStep fm) acc := by
  intro input
  induction input with
  | nil =>
      intro acc p h
      exact h
  | cons e rest ih =>
      intro acc p h
      rw [List.foldl_cons]
      exact ih (normalizeStep fm acc e) p (mem_normalizeStep fm acc e p h)

theorem foldl_key_of_entry (fm : FieldMapping) :
    ∀ (input : InputRecord) (acc : CanonicalRecord) (s v k : String),
      matchKey fm s = some k → (s, v) ∈ input →
      ∃ v', (k, v') ∈ input.foldl (normalizeStep fm) acc := by
  intro input
  induction input with
  | nil =>
      intro acc s v k _ hmem
      simp at hmem
  | cons e rest ih =>
      intro acc s v k hm hmem
      rw [List.foldl_cons]
      rcases List.mem_cons.mp hmem with heq | hrest
      · subst heq
        obtain ⟨v', hv'⟩ := key_mem_normalizeStep fm acc (s, v) k hm
        exact ⟨v', mem_foldl_normalize fm rest (normalizeStep fm acc (s, v))
          (k, v') hv'⟩
      · exact ih (normalizeStep fm acc e) s v k hm hrest

theorem foldl_keys_sound (fm : FieldMapping) :
    ∀ (input : InputRecord) (acc : CanonicalRecord) (k v : String),
      (k, v) ∈ input.foldl (normalizeStep fm) acc →
      (k, v) ∈ acc ∨ ∃ syns, (k, syns) ∈ fm := by
  intro input
  induction input with
  | nil =>
      intro acc k v h
      exact Or.inl h
  | cons e rest ih =>
      intro acc k v h
      rw [List.foldl_cons] at h
      rcases ih (normalizeStep fm acc e) k v h with hin | hex
      · cases hm : matchKey fm e.1 with
        | none =>
            rw [normalizeStep, hm] at hin
            exact Or.inl hin
        | some k' =>
            simp only [normalizeStep, hm] at hin
            by_cases hl : (lookupField acc k').isSome = true
            · rw [if_pos hl] at hin
              exact Or.inl hin
            · rw [if_neg hl] at hin
              rcases List.mem_append.mp hin with h1 | h2
              · exact Or.inl h1
              · rw [List.mem_singleton] at h2
                have hk : k' = k := (congrArg Prod.fst h2).symm
                subst hk
                exact Or.inr (matchKey_mem fm e.1 k' hm)
      · exact Or.inr hex

/-- C7: every synonym string the field mapping associates with a
canonical key, occurring as a raw field name in an input record, yields a
canonical-record entry at that key (matching is case- and
accent-insensitive), and the canonical record never contains a key absent
from the field mapping's canonical key set. -/
theorem normalize_synonym_yields_canonical (input : InputRecord)
    (k s v : String) (syns : List String)
    (hmap : (k, syns) ∈ fieldMapping) (hsyn : s ∈ syns)
    (hin : (s, v) ∈ input) :
    (∃ v', (k, v') ∈ normalizeRecord fieldMapping input) ∧
    (∀ k' v', (k', v') ∈ normalizeRecord fieldMapping input →
      ∃ syns', (k', syns') ∈ fieldMapping) := by
  have hball : ∀ p ∈ fieldMapping, ∀ t ∈ p.2,
      matchKey fieldMapping t = some p.1 := by decide
  have hm : matchKey fieldMapping s = some k := hball (k, syns) hmap s hsyn
  constructor
  · exact foldl_key_of_entry fieldMapping input [] s v k hm hin
  · intro k' v' h
    rcases foldl_keys_sound fieldMapping input [] k' v' h with h1 | h2
    · exact absurd h1 (List.not_mem_nil (k', v'))
    · exact h2

theorem normalize_synonym_yields_canonical_witness :
    ∃ v', ("client_company", v') ∈
      normalizeRecord fieldMapping [("société", "Acme")] :=
  (normalize_synonym_yields_canonical [("société", "Acme")] "client_company"
    "société" "Acme" ["company", "société", "entreprise"]
    (by decide) (by decide) (by decide)).1

end VynalDocs
